import Mathlib

/-
Verification development for the porty port inspector (src/main.rs).

The program shells out to external tools (lsof, ps, pgrep, docker) and to the
libproc process-table API. This embedding turns every such external source
into an explicit input of the modelled function:
- stdout text of a tool invocation is a String argument;
- availability and exit status of a tool invocation are a CmdResult argument;
- the libproc lookups proc_name / proc_pidpath are oracle arguments of type
  Nat -> Option String (none models a non-positive return size);
- the ps ppid lookup in the ancestor walk is an oracle Nat -> Option Nat.

Rust strings are modelled as Lean Strings; where the Rust code indexes by
bytes the model works on the character list and tracks UTF-8 byte sizes
explicitly (Char.utf8Size), so the byte-boundary panic of a slice such as
line[1..] is representable (it surfaces as an Option.none outcome).
Machine integers u16/u32/u64 are modelled as Nat with the overflow checks of
str::parse made explicit; pids and ports stay plain Nat elsewhere because the
code performs no arithmetic on them.
-/

/-- Model of one external command invocation: the command may be impossible to
invoke at all (unavailable, an io error in Rust), or it ran and produced an
exit status (true = success) together with its stdout text. -/
inductive CmdResult where
  | unavailable
  | ran (exitSuccess : Bool) (stdout : String)
deriving DecidableEq

/-- Classification taxonomy, from enum Kind in main.rs. -/
inductive Kind where
  | Dev
  | Database
  | Container
  | System
  | Unknown
deriving DecidableEq

/-- Discovery record, from struct PortEntry in main.rs. -/
structure PortEntry where
  port : Nat
  pid : Option Nat
  process : Option String
  exec_path : Option String
  kind : Kind
deriving DecidableEq

/-- Substring search on character lists: does pat occur contiguously in the
second list? This models Rust str::contains for literal patterns. -/
def charsContains (pat : List Char) : List Char → Bool
  | [] => pat.isEmpty
  | c :: t => pat.isPrefixOf (c :: t) || charsContains pat t

/-- Model of Rust str::contains(pat). -/
def strContains (s pat : String) : Bool := charsContains pat.toList s.toList

/-- Model of Rust str::to_lowercase. The Rust function is Unicode-aware; all
keyword tests in the program use ASCII keywords, on which the per-character
ASCII lowering below agrees with it. -/
def lowerString (s : String) : String := String.mk (s.toList.map Char.toLower)

/-- Digit run to number, most significant digit first (only applied to lists
of ascii digits). -/
def digitsToNat (cs : List Char) : Nat :=
  cs.foldl (fun a c => 10 * a + (c.toNat - 48)) 0

/-- Model of Rust str::parse::<uN>().ok() for an unsigned target whose largest
value is maxVal: an optional leading plus sign, then a non-empty run of ascii
digits, and the value must fit, otherwise none. -/
def rustParseNat? (maxVal : Nat) (s : String) : Option Nat :=
  let cs :=
    match s.toList with
    | '+' :: t => t
    | l => l
  if cs.isEmpty then none
  else if cs.all Char.isDigit then
    if digitsToNat cs ≤ maxVal then some (digitsToNat cs) else none
  else none

/-- Characters strictly after the last colon of the list, or none when no
colon occurs. Models addr.rfind(given colon) followed by the slice starting
one byte further (a colon is a single-byte character, so that slice is always
on a character boundary). -/
def afterLastColon? : List Char → Option (List Char)
  | [] => none
  | c :: t =>
    match afterLastColon? t with
    | some r => some r
    | none => if c = ':' then some t else none

/-- Characters strictly before the first arrow separator (a minus sign
directly followed by a greater-than sign), or none when no arrow occurs.
Models port_mapping.find of the two-character arrow then the prefix slice. -/
def beforeFirstArrow? : List Char → Option (List Char)
  | [] => none
  | '-' :: '>' :: _ => some []
  | c :: t => (beforeFirstArrow? t).map (fun r => c :: r)

/-- Split on a separator character, full split; the result always has at
least one (possibly empty) piece. Models Rust str::split(sep). -/
def charsSplitOnChar (sep : Char) : List Char → List (List Char)
  | [] => [[]]
  | c :: t =>
    if c = sep then [] :: charsSplitOnChar sep t
    else
      match charsSplitOnChar sep t with
      | [] => [[c]]
      | h :: r => (c :: h) :: r

/-- Break a character list at the first occurrence of a separator: the piece
before it and the remainder after it, or none when the separator is absent. -/
def breakAtChar (sep : Char) : List Char → Option (List Char × List Char)
  | [] => none
  | c :: t =>
    if c = sep then some ([], t)
    else (breakAtChar sep t).map (fun pr => (c :: pr.1, pr.2))

/-- Split on a separator character into at most n pieces; the last piece keeps
any further separators. Models Rust str::splitn(n, sep). -/
def splitnChar (sep : Char) : Nat → List Char → List (List Char)
  | 0, _ => []
  | 1, l => [l]
  | n + 2, l =>
    match breakAtChar sep l with
    | none => [l]
    | some (a, b) => a :: splitnChar sep (n + 1) b

/-- Drop one trailing carriage return, as Rust str::lines does on lines that
were terminated by a carriage return plus line feed. -/
def stripTrailingCR (l : List Char) : List Char :=
  match l.getLast? with
  | some c => if c = '\r' then l.dropLast else l
  | none => l

/-- Drop ascii whitespace from both ends; models Rust str::trim (which is
Unicode-aware, but every trimmed text in the program is ascii). -/
def trimChars (l : List Char) : List Char :=
  ((l.dropWhile Char.isWhitespace).reverse.dropWhile Char.isWhitespace).reverse

/-- Model of Rust str::lines: split at line feeds, drop a final empty segment
produced by a trailing line feed, and strip one carriage return from every
segment that was terminated by a line feed. -/
def rustLines (s : String) : List String :=
  match (charsSplitOnChar '\n' s.toList).reverse with
  | [] => []
  | last :: revInit =>
    (revInit.reverse.map (fun l => String.mk (stripTrailingCR l)))
      ++ (if last.isEmpty then [] else [String.mk last])

/-- Port-table fallback of classify, from the match on port in main.rs. -/
def portKind (port : Nat) : Kind :=
  if port = 3000 ∨ port = 5173 ∨ port = 8080 ∨ port = 8000 ∨ port = 4200
      ∨ port = 3001 ∨ port = 5000 ∨ port = 9000 then Kind.Dev
  else if port = 5432 ∨ port = 3306 ∨ port = 6379 ∨ port = 27017
      ∨ port = 1433 ∨ port = 5984 then Kind.Database
  else if port = 2375 ∨ port = 2376 then Kind.Container
  else if port = 631 then Kind.System
  else Kind.Unknown

/-- Model of classify(port, process) from main.rs: process-name keyword rules
first (system, then dev, then database, then container, first match wins),
then the port table, else Unknown. -/
def classify (port : Nat) (process : Option String) : Kind :=
  match process with
  | some pRaw =>
    let p := lowerString pRaw
    if strContains p "launchd" || strContains p "mdnsresponder" || strContains p "cups"
        || strContains p "controlcenter" || strContains p "airplay" then Kind.System
    else if strContains p "node" || strContains p "vite" || strContains p "next"
        || strContains p "python" || strContains p "ruby" || strContains p "rails"
        || strContains p "django" || strContains p "flask" || strContains p "phoenix"
        || strContains p "webpack" || strContains p "npm" || strContains p "yarn"
        || strContains p "puma" || strContains p "unicorn" then Kind.Dev
    else if strContains p "postgres" || strContains p "mysql" || strContains p "redis"
        || strContains p "mongod" || strContains p "mariadb" || strContains p "couchdb" then Kind.Database
    else if strContains p "docker" || strContains p "containerd" || strContains p "colima"
        || strContains p "podman" then Kind.Container
    else portKind port
  | none => portKind port

/-- Model of extract_port(addr) from main.rs: substring after the last colon,
leading digit run, parsed as u16 (none when there is no colon, no leading
digit, or the digit run overflows u16). -/
def extract_port (addr : String) : Option Nat :=
  match afterLastColon? addr.toList with
  | none => none
  | some after =>
    let digits := after.takeWhile Char.isDigit
    if digits.isEmpty then none
    else rustParseNat? 65535 (String.mk digits)

/-- Running state of the lsof field-output loop in discover_ports: the current
process-id context, the fallback command label, and the accepted entries. -/
structure ParseState where
  current_pid : Option Nat
  current_cmd : Option String
  entries : List PortEntry
deriving DecidableEq

/-- Process-name resolution of the n branch of discover_ports: the libproc
name lookup first, the lsof command label as fallback. Models
get_process_name_libproc(pid).or_else(current_cmd). -/
def resolveProcessName (nameOf : Nat → Option String) (fallback : Option String)
    (pid : Nat) : Option String :=
  match nameOf pid with
  | some nm => some nm
  | none => fallback

/-- Model of one iteration of the line loop of discover_ports. Returns none
exactly when the Rust code panics on this line: the slice line[1..] is taken
before the tag is inspected, and it is out of a character boundary whenever
the first character of the line occupies more than one byte. A blank line is
skipped; a p tag resets the pid context (and clears the command fallback); a
c tag records the fallback command; an n tag emits an entry when a pid
context exists and a port can be extracted; other tags are ignored. The Rust
code binds the resolved process name once and uses it for both the process
field and the classification; the model repeats the pure resolveProcessName
call, which is the same value. -/
def parse_line (nameOf pathOf : Nat → Option String) (st : ParseState) (line : String) :
    Option ParseState :=
  match line.toList with
  | [] => some st
  | c :: rest =>
    if c.utf8Size ≠ 1 then none
    else if c = 'p' then
      some { st with current_pid := rustParseNat? 4294967295 (String.mk rest),
                     current_cmd := none }
    else if c = 'c' then
      some { st with current_cmd := some (String.mk rest) }
    else if c = 'n' then
      match st.current_pid with
      | none => some st
      | some pid =>
        match extract_port (String.mk rest) with
        | none => some st
        | some port =>
          some { st with entries := st.entries ++
            [{ port := port, pid := some pid,
               process := resolveProcessName nameOf st.current_cmd pid,
               exec_path := pathOf pid,
               kind := classify port (resolveProcessName nameOf st.current_cmd pid) }] }
    else some st

/-- Fold of parse_line over a list of lines, propagating the panic outcome. -/
def parse_lines (nameOf pathOf : Nat → Option String) :
    ParseState → List String → Option ParseState
  | st, [] => some st
  | st, l :: ls =>
    match parse_line nameOf pathOf st l with
    | none => none
    | some st2 => parse_lines nameOf pathOf st2 ls

/-- Raw record list produced by the parsing loop of discover_ports on the
lsof stdout text (before deduplication, enrichment and sorting); none models
the byte-boundary panic. -/
def parse_lsof (nameOf pathOf : Nat → Option String) (text : String) :
    Option (List PortEntry) :=
  (parse_lines nameOf pathOf ⟨none, none, []⟩ (rustLines text)).map ParseState.entries

/-- Deduplication filter of discover_ports: keep an entry with a present pid
only when its (port, pid) pair was not seen before; entries without a pid are
always kept. Models the HashSet-insert filter. -/
def dedupGo : List (Nat × Nat) → List PortEntry → List PortEntry
  | _, [] => []
  | seen, e :: t =>
    match e.pid with
    | some p =>
      if (e.port, p) ∈ seen then dedupGo seen t
      else e :: dedupGo ((e.port, p) :: seen) t
    | none => e :: dedupGo seen t

/-- Base image name extraction in get_friendly_container_name: text before the
first colon (tag stripped), then the last slash-separated component
(registry path stripped); both fallbacks return the whole image text. -/
def image_base_name (image : String) : String :=
  let first := (charsSplitOnChar ':' image.toList).head?.getD image.toList
  String.mk ((charsSplitOnChar '/' first).getLast?.getD image.toList)

/-- Model of is_generic_name from main.rs: byte length above 20, or every
character an ascii hex digit or hyphen (an empty name therefore counts as
generic). Rust name.len() counts bytes, hence utf8ByteSize. -/
def is_generic_name (name : String) : Bool :=
  name.utf8ByteSize > 20
    || name.toList.all (fun c => c.isDigit
        || ('a' ≤ c && c ≤ 'f') || ('A' ≤ c && c ≤ 'F') || c = '-')

/-- Model of get_friendly_container_name from main.rs. -/
def get_friendly_container_name (container_name image : String) : String :=
  let image_base := image_base_name image
  let display_name :=
    if is_generic_name container_name && !(is_generic_name image_base) then image_base
    else container_name
  display_name ++ " (container)"

/-- Model of guess_service_by_port from main.rs. -/
def guess_service_by_port (port : Nat) : Option String :=
  if port = 5432 then some "postgresql"
  else if port = 3306 then some "mysql"
  else if port = 6379 then some "redis"
  else if port = 27017 then some "mongodb"
  else if port = 7474 then some "neo4j-http"
  else if port = 7473 then some "neo4j-https"
  else if port = 7687 then some "neo4j-bolt"
  else if port = 9200 then some "elasticsearch"
  else if port = 9300 then some "elasticsearch-cluster"
  else if port = 5672 then some "rabbitmq"
  else if port = 15672 then some "rabbitmq-mgmt"
  else if port = 11211 then some "memcached"
  else if port = 5984 then some "couchdb"
  else if port = 9042 then some "cassandra"
  else if port = 8086 then some "influxdb"
  else if port = 9092 then some "kafka"
  else if port = 9000 then some "minio"
  else if port = 9001 then some "minio-console"
  else none

/-- Host-port map built by enrich_docker_containers from the docker ps stdout:
per non-empty line, split into at most four pipe-separated fields (skip short
lines), then per comma-separated port mapping take the digits after the last
colon before the arrow and parse them as u16. Later insertions shadow earlier
ones, as with the HashMap of the Rust code; the list is consulted with
List.lookup which returns the most recent binding. -/
def dockerPortMap (text : String) : List (Nat × (String × String)) :=
  (rustLines text).foldl (fun m line =>
    if line.toList.isEmpty then m
    else
      let parts := splitnChar '|' 4 line.toList
      if parts.length < 4 then m
      else
        let cname := String.mk (parts.getD 1 [])
        let image := String.mk (parts.getD 2 [])
        let ports_str := parts.getD 3 []
        (charsSplitOnChar ',' ports_str).foldl (fun m2 pm0 =>
          let pm := trimChars pm0
          match beforeFirstArrow? pm with
          | none => m2
          | some before =>
            match afterLastColon? before with
            | none => m2
            | some portChars =>
              match rustParseNat? 65535 (String.mk portChars) with
              | none => m2
              | some port => (port, (cname, image)) :: m2) m) []

/-- Per-entry action of enrich_docker_containers: only a Container-kind entry
whose present process name mentions docker (case-insensitively) is renamed,
either from a matching container of the port map or from the well-known-port
service table; every other entry is returned unchanged. -/
def enrichEntry (pmap : List (Nat × (String × String))) (e : PortEntry) : PortEntry :=
  if e.kind = Kind.Container then
    match e.process with
    | some proc =>
      if strContains (lowerString proc) "docker" then
        match pmap.lookup e.port with
        | some (cname, image) =>
          { e with process := some (get_friendly_container_name cname image) }
        | none =>
          match guess_service_by_port e.port with
          | some svc => { e with process := some (svc ++ " (container)") }
          | none => e
      else e
    | none => e
  else e

/-- Model of enrich_docker_containers from main.rs: when the docker ps
invocation cannot run or exits non-zero the entry list is returned untouched;
otherwise every entry is passed through enrichEntry with the port map parsed
from the docker stdout. -/
def enrich_docker_containers (docker : CmdResult) (entries : List PortEntry) :
    List PortEntry :=
  match docker with
  | CmdResult.unavailable => entries
  | CmdResult.ran false _ => entries
  | CmdResult.ran true text => entries.map (enrichEntry (dockerPortMap text))

/-- Ascending-port order used by the final sort of discover_ports. -/
def portLE (a b : PortEntry) : Prop := a.port ≤ b.port

instance : DecidableRel portLE := fun a b => inferInstanceAs (Decidable (a.port ≤ b.port))

instance : IsTotal PortEntry portLE := ⟨fun a b => Nat.le_total a.port b.port⟩

instance : IsTrans PortEntry portLE := ⟨fun _ _ _ => Nat.le_trans⟩

/-- Model of discover_ports from main.rs. Arguments: the libproc name and
path oracles, the docker ps invocation used by the enrichment pass, and the
lsof invocation. An unavailable or non-zero lsof invocation is the discovery
error; on a successful invocation the stdout is parsed (ok none models the
byte-boundary panic of the parsing loop), deduplicated by (port, pid),
enriched, and sorted ascending by port. The Rust sort_by_key is a stable
ascending sort, modelled by insertion sort under portLE. -/
def discover_ports (nameOf pathOf : Nat → Option String) (docker lsofRes : CmdResult) :
    Except String (Option (List PortEntry)) :=
  match lsofRes with
  | CmdResult.unavailable => Except.error "failed to run lsof (is it installed?)"
  | CmdResult.ran false _ => Except.error "lsof exited with a non-zero status"
  | CmdResult.ran true text =>
    match parse_lsof nameOf pathOf text with
    | none => Except.ok none
    | some raw =>
      Except.ok (some (List.insertionSort portLE
        (enrich_docker_containers docker (dedupGo [] raw))))

/-- Result of the combined ps sub-query of the detail view, from struct
CombinedPsInfo in main.rs. The f64 cpu percentage is modelled as a rational;
no claim depends on float rounding. -/
structure CombinedPsInfo where
  command : Option String
  user_name : String
  uid : Nat
  uptime : String
  start_time : String
  memory_rss : Nat
  memory_virtual : Nat
  cpu_usage : Rat
  thread_count : Nat
  env_vars : List (String × String)
deriving DecidableEq

/-- Zero value of CombinedPsInfo, from the derived Default in main.rs (note
the inner helper initialises some fields to the text unknown, but a panicking
thread is replaced by this all-empty default). -/
def CombinedPsInfo.zero : CombinedPsInfo :=
  { command := none, user_name := "", uid := 0, uptime := "", start_time := ""
  , memory_rss := 0, memory_virtual := 0, cpu_usage := 0, thread_count := 0
  , env_vars := [] }

/-- Result of the combined lsof sub-query of the detail view, from struct
CombinedLsofInfo in main.rs. -/
structure CombinedLsofInfo where
  working_dir : Option String
  file_descriptors : Nat
  listen_addresses : List String
  other_ports : List Nat
deriving DecidableEq

/-- Zero value of CombinedLsofInfo, from the derived Default in main.rs. -/
def CombinedLsofInfo.zero : CombinedLsofInfo :=
  { working_dir := none, file_descriptors := 0, listen_addresses := [], other_ports := [] }

/-- Container metadata, from struct DockerInfo in main.rs. -/
structure DockerInfo where
  container_id : String
  container_name : String
  image : String
  status : String
  volumes : List String
deriving DecidableEq

/-- Deep per-port snapshot, from struct DetailedPortInfo in main.rs. -/
structure DetailedPortInfo where
  port : Nat
  pid : Nat
  process_name : String
  command : String
  working_dir : Option String
  exec_path : Option String
  user_name : String
  uid : Nat
  parent_chain : List (Nat × String)
  children : List (Nat × String)
  uptime : String
  start_time : String
  memory_rss : Nat
  memory_virtual : Nat
  cpu_usage : Rat
  thread_count : Nat
  file_descriptors : Nat
  listen_addresses : List String
  active_connections : Nat
  other_ports : List Nat
  env_vars : List (String × String)
  kind : Kind
  docker_info : Option DockerInfo
deriving DecidableEq

/-- Join outcomes of the six concurrent sub-queries of the detail view: each
field is the value delivered by the corresponding spawned thread, and none
models a thread whose join failed because it panicked (the thread bodies are
otherwise total and absorb tool failures into defaults internally). -/
structure SubqueryResults where
  ps : Option CombinedPsInfo
  lsofInfo : Option CombinedLsofInfo
  parent : Option (List (Nat × String))
  children : Option (List (Nat × String))
  connections : Option Nat
  docker : Option (Option DockerInfo)

/-- Model of the join-and-assemble phase of get_detailed_port_info from
main.rs: each sub-query result is taken with unwrap_or_default (the zero
record, the empty list, zero, or no container info) and the record is always
assembled; the function has no failure outcome. -/
def get_detailed_port_info (port pid : Nat) (kind : Kind)
    (nameOf pathOf : Nat → Option String) (r : SubqueryResults) : DetailedPortInfo :=
  let process_name := (nameOf pid).getD "unknown"
  let exec_path := pathOf pid
  let ps_info := r.ps.getD CombinedPsInfo.zero
  let lsof_info := r.lsofInfo.getD CombinedLsofInfo.zero
  let parent_chain := r.parent.getD []
  let children := r.children.getD []
  let active_connections := r.connections.getD 0
  let docker_info := r.docker.getD none
  { port := port, pid := pid, process_name := process_name
  , command := ps_info.command.getD "unknown"
  , working_dir := lsof_info.working_dir, exec_path := exec_path
  , user_name := ps_info.user_name, uid := ps_info.uid
  , parent_chain := parent_chain, children := children
  , uptime := ps_info.uptime, start_time := ps_info.start_time
  , memory_rss := ps_info.memory_rss, memory_virtual := ps_info.memory_virtual
  , cpu_usage := ps_info.cpu_usage, thread_count := ps_info.thread_count
  , file_descriptors := lsof_info.file_descriptors
  , listen_addresses := lsof_info.listen_addresses
  , active_connections := active_connections, other_ports := lsof_info.other_ports
  , env_vars := ps_info.env_vars, kind := kind, docker_info := docker_info }

/-- Loop body of get_parent_chain from main.rs, with the iteration count of
the bounded for loop as explicit fuel: stop when the current pid was already
seen, when the ppid lookup fails, when the parent is pid 0 or 1, or when the
parent has no resolvable name; otherwise prepend the parent (so the oldest
ancestor ends first) and ascend. -/
def parentChainLoop (parentOf : Nat → Option Nat) (nameOf : Nat → Option String) :
    Nat → Nat → List Nat → List (Nat × String) → List (Nat × String)
  | 0, _, _, chain => chain
  | fuel + 1, current, seen, chain =>
    if current ∈ seen then chain
    else
      match parentOf current with
      | none => chain
      | some ppid =>
        if ppid = 0 ∨ ppid = 1 then chain
        else
          match nameOf ppid with
          | none => chain
          | some name =>
            parentChainLoop parentOf nameOf fuel ppid (current :: seen) ((ppid, name) :: chain)

/-- Model of get_parent_chain from main.rs: at most ten ascent steps from the
given pid, with a seen-pid set guarding against cycles. -/
def get_parent_chain (parentOf : Nat → Option Nat) (nameOf : Nat → Option String)
    (pid : Nat) : List (Nat × String) :=
  parentChainLoop parentOf nameOf 10 pid [] []

/-- Pid deduplication of cmd_kill from main.rs: walk the port-filtered
entries, keep the first (pid, process) pair per pid, skip entries missing a
pid or a process name. -/
def killDedupGo : List Nat → List PortEntry → List (Nat × String)
  | _, [] => []
  | seen, e :: t =>
    match e.pid, e.process with
    | some pid, some proc =>
      if pid ∈ seen then killDedupGo seen t
      else (pid, proc) :: killDedupGo (pid :: seen) t
    | _, _ => killDedupGo seen t

/-- Termination targets computed by cmd_kill for a port: the entries on the
port, deduplicated by pid. In the force branch of the Rust code kill_pid is
invoked exactly once per element of this list, in order. -/
def cmd_kill_targets (entries : List PortEntry) (port : Nat) : List (Nat × String) :=
  killDedupGo [] (entries.filter (fun e => decide (e.port = port)))

/-- Guard of lineTagOk: a line is safely sliceable when it is empty (it is
skipped) or its first character occupies a single byte. -/
def lineTagOk (l : String) : Bool :=
  match l.toList with
  | [] => true
  | c :: _ => c.utf8Size == 1

/-- Entries for which enrich_docker_containers may rewrite the display name:
Container kind and a present process name mentioning docker. -/
def dockerishEntry (e : PortEntry) : Prop :=
  e.kind = Kind.Container
    ∧ ∃ pr, e.process = some pr ∧ strContains (lowerString pr) "docker" = true

instance (e : PortEntry) : Decidable (dockerishEntry e) := by
  unfold dockerishEntry
  cases h : e.process with
  | none =>
    refine Decidable.isFalse ?_
    rintro ⟨-, pr, hpr, -⟩
    simp [h] at hpr
  | some pr =>
    by_cases hk : e.kind = Kind.Container
    · by_cases hc : strContains (lowerString pr) "docker" = true
      · exact Decidable.isTrue ⟨hk, pr, rfl, hc⟩
      · refine Decidable.isFalse ?_
        rintro ⟨-, pr2, hpr2, hc2⟩
        cases hpr2
        exact hc hc2
    · exact Decidable.isFalse (fun hh => hk hh.1)

/-- Enrichment never changes the port, pid, executable path or kind of an
entry; only the process display name may be rewritten. -/
theorem enrichEntry_fields (m : List (Nat × (String × String))) (e : PortEntry) :
    (enrichEntry m e).port = e.port ∧ (enrichEntry m e).pid = e.pid
    ∧ (enrichEntry m e).exec_path = e.exec_path ∧ (enrichEntry m e).kind = e.kind := by
  unfold enrichEntry
  repeat' split
  all_goals exact ⟨rfl, rfl, rfl, rfl⟩

/-- Enrichment leaves any entry untouched that is not a Container-kind entry
with a present process name mentioning docker. -/
theorem enrichEntry_id (m : List (Nat × (String × String))) (e : PortEntry)
    (h : ¬ dockerishEntry e) : enrichEntry m e = e := by
  unfold enrichEntry
  by_cases hk : e.kind = Kind.Container
  · rw [if_pos hk]
    cases hp : e.process with
    | none => rfl
    | some proc =>
      by_cases hc : strContains (lowerString proc) "docker" = true
      · exact absurd ⟨hk, proc, hp, hc⟩ h
      · simp [hc]
  · rw [if_neg hk]

/-- Mapping a function that does not change the truth of a boolean predicate
does not change the predicate count. -/
theorem countP_map_eq {α : Type} (f : α → α) (pr : α → Bool) (h : ∀ a, pr (f a) = pr a) :
    ∀ l : List α, (l.map f).countP pr = l.countP pr
  | [] => rfl
  | a :: t => by
    simp only [List.map_cons, List.countP_cons, h, countP_map_eq f pr h t]

/-- Enrichment preserves the count of any predicate that is invariant under
the per-entry enrichment step. -/
theorem countP_enrich (docker : CmdResult) (l : List PortEntry) (pr : PortEntry → Bool)
    (h : ∀ m e, pr (enrichEntry m e) = pr e) :
    (enrich_docker_containers docker l).countP pr = l.countP pr := by
  cases docker with
  | unavailable => rfl
  | ran ok text =>
    cases ok with
    | false => rfl
    | true => exact countP_map_eq (enrichEntry (dockerPortMap text)) pr (h _) l

/-- Central deduplication count: after the (port, pid) filter of
discover_ports, a pair occurs exactly once when it occurs at all in the input
and was not blocked by the seen set. -/
theorem dedupGo_countP (p q : Nat) (l : List PortEntry) : ∀ seen : List (Nat × Nat),
    (dedupGo seen l).countP (fun e => decide (e.port = p ∧ e.pid = some q))
      = if (p, q) ∉ seen ∧ ∃ e ∈ l, e.port = p ∧ e.pid = some q then 1 else 0 := by
  induction l with
  | nil => intro seen; simp [dedupGo]
  | cons e t ih =>
    intro seen
    cases hpid : e.pid with
    | none =>
      have hne : ¬(e.port = p ∧ e.pid = some q) := fun hc => by
        rw [hpid] at hc
        exact Option.noConfusion hc.2
      have hd : (decide (e.port = p ∧ (none : Option Nat) = some q)) = false := by
        simp
      simp only [dedupGo, hpid, List.countP_cons, hd,
        Bool.false_eq_true, if_false, Nat.add_zero]
      rw [ih seen]
      have hiff : ((p, q) ∉ seen ∧ ∃ x ∈ t, x.port = p ∧ x.pid = some q)
          ↔ ((p, q) ∉ seen ∧ ∃ x ∈ e :: t, x.port = p ∧ x.pid = some q) := by
        rw [List.exists_mem_cons_iff]
        exact and_congr_right fun _ => (or_iff_right hne).symm
      exact if_congr hiff rfl rfl
    | some pv =>
      by_cases hseen : (e.port, pv) ∈ seen
      · simp only [dedupGo, hpid, if_pos hseen]
        rw [ih seen]
        have hiff : ((p, q) ∉ seen ∧ ∃ x ∈ t, x.port = p ∧ x.pid = some q)
            ↔ ((p, q) ∉ seen ∧ ∃ x ∈ e :: t, x.port = p ∧ x.pid = some q) := by
          constructor
          · rintro ⟨hno, x, hx, hPx⟩
            exact ⟨hno, x, List.mem_cons_of_mem e hx, hPx⟩
          · rintro ⟨hno, x, hx, hPx⟩
            rcases List.mem_cons.mp hx with rfl | hx2
            · exfalso
              apply hno
              have h2 : pv = q := by
                have h3 := hPx.2
                rw [hpid] at h3
                exact Option.some.inj h3
              rw [← hPx.1, ← h2]
              exact hseen
            · exact ⟨hno, x, hx2, hPx⟩
        exact if_congr hiff rfl rfl
      · simp only [dedupGo, hpid, if_neg hseen, List.countP_cons]
        rw [ih ((e.port, pv) :: seen)]
        by_cases hP : e.port = p ∧ e.pid = some q
        · have hq : pv = q := by
            have h3 := hP.2
            rw [hpid] at h3
            exact Option.some.inj h3
          have hp1 : e.port = p := hP.1
          subst hq
          subst hp1
          simp [hseen, hpid, List.exists_mem_cons_iff]
        · have hP2 : ¬(e.port = p ∧ pv = q) := fun hc => hP ⟨hc.1, by rw [hpid, hc.2]⟩
          have hd : (decide (e.port = p ∧ some pv = some q)) = false := by
            apply decide_eq_false
            intro hc
            exact hP2 ⟨hc.1, Option.some.inj hc.2⟩
          have hmm2 : ((p, q) ∉ (e.port, pv) :: seen) ↔ ((p, q) ∉ seen) := by
            simp only [List.mem_cons, not_or]
            constructor
            · exact fun h => h.2
            · intro h2
              refine ⟨fun hc => ?_, h2⟩
              exact hP2 ⟨(congrArg Prod.fst hc).symm, (congrArg Prod.snd hc).symm⟩
          have hiff : ((p, q) ∉ (e.port, pv) :: seen ∧ ∃ x ∈ t, x.port = p ∧ x.pid = some q)
              ↔ ((p, q) ∉ seen ∧ ∃ x ∈ e :: t, x.port = p ∧ x.pid = some q) := by
            rw [hmm2, List.exists_mem_cons_iff]
            exact and_congr_right fun _ => (or_iff_right hP).symm
          simp only [hpid, hd, Bool.false_eq_true, if_false, Nat.add_zero]
          exact if_congr hiff rfl rfl

/-- Kill-target count: after the pid deduplication of cmd_kill, a pid occurs
exactly once among the targets when some entry of the filtered list carries it
together with a process name, and was not blocked by the seen set. -/
theorem killDedupGo_countP (pid : Nat) (l : List PortEntry) : ∀ seen : List Nat,
    (killDedupGo seen l).countP (fun pr => decide (pr.1 = pid))
      = if pid ∉ seen ∧ ∃ e ∈ l, e.pid = some pid ∧ e.process.isSome = true then 1 else 0 := by
  induction l with
  | nil => intro seen; simp [killDedupGo]
  | cons e t ih =>
    intro seen
    cases hpid : e.pid with
    | none =>
      have hne : ¬(e.pid = some pid ∧ e.process.isSome = true) := fun hc => by
        rw [hpid] at hc
        exact Option.noConfusion hc.1
      have hiff : (pid ∉ seen ∧ ∃ x ∈ t, x.pid = some pid ∧ x.process.isSome = true)
          ↔ (pid ∉ seen ∧ ∃ x ∈ e :: t, x.pid = some pid ∧ x.process.isSome = true) := by
        rw [List.exists_mem_cons_iff]
        exact and_congr_right fun _ => (or_iff_right hne).symm
      cases hproc : e.process with
      | none =>
        simp only [killDedupGo, hpid, hproc]
        rw [ih seen]
        exact if_congr hiff rfl rfl
      | some proc =>
        simp only [killDedupGo, hpid, hproc]
        rw [ih seen]
        exact if_congr hiff rfl rfl
    | some pv =>
      cases hproc : e.process with
      | none =>
        have hne : ¬(e.pid = some pid ∧ e.process.isSome = true) := fun hc => by
          rw [hproc] at hc
          exact Bool.noConfusion hc.2
        simp only [killDedupGo, hpid, hproc]
        rw [ih seen]
        have hiff : (pid ∉ seen ∧ ∃ x ∈ t, x.pid = some pid ∧ x.process.isSome = true)
            ↔ (pid ∉ seen ∧ ∃ x ∈ e :: t, x.pid = some pid ∧ x.process.isSome = true) := by
          rw [List.exists_mem_cons_iff]
          exact and_congr_right fun _ => (or_iff_right hne).symm
        exact if_congr hiff rfl rfl
      | some proc =>
        by_cases hseen : pv ∈ seen
        · simp only [killDedupGo, hpid, hproc, if_pos hseen]
          rw [ih seen]
          have hiff : (pid ∉ seen ∧ ∃ x ∈ t, x.pid = some pid ∧ x.process.isSome = true)
              ↔ (pid ∉ seen ∧ ∃ x ∈ e :: t, x.pid = some pid ∧ x.process.isSome = true) := by
            constructor
            · rintro ⟨hno, x, hx, hPx⟩
              exact ⟨hno, x, List.mem_cons_of_mem e hx, hPx⟩
            · rintro ⟨hno, x, hx, hPx⟩
              rcases List.mem_cons.mp hx with rfl | hx2
              · exfalso
                apply hno
                have h2 : pv = pid := by
                  have h3 := hPx.1
                  rw [hpid] at h3
                  exact Option.some.inj h3
                rw [← h2]
                exact hseen
              · exact ⟨hno, x, hx2, hPx⟩
          exact if_congr hiff rfl rfl
        · simp only [killDedupGo, hpid, hproc, if_neg hseen, List.countP_cons]
          rw [ih (pv :: seen)]
          by_cases hP : pv = pid
          · subst hP
            simp [hseen, hpid, hproc, List.exists_mem_cons_iff]
          · have hneP : ¬(e.pid = some pid ∧ e.process.isSome = true) := fun hc => by
              rw [hpid] at hc
              exact hP (Option.some.inj hc.1)
            have hd : (decide ((pv, proc).1 = pid)) = false :=
              decide_eq_false (fun hc => hP hc)
            have hne2 : (pid ∉ pv :: seen) ↔ (pid ∉ seen) := by
              simp only [List.mem_cons, not_or]
              exact ⟨fun h => h.2, fun h2 => ⟨fun hc => hP hc.symm, h2⟩⟩
            have hiff : (pid ∉ pv :: seen ∧ ∃ x ∈ t, x.pid = some pid ∧ x.process.isSome = true)
                ↔ (pid ∉ seen ∧ ∃ x ∈ e :: t, x.pid = some pid ∧ x.process.isSome = true) := by
              rw [hne2, List.exists_mem_cons_iff]
              exact and_congr_right fun _ => (or_iff_right hneP).symm
            simp only [hd, Bool.false_eq_true, if_false, Nat.add_zero]
            exact if_congr hiff rfl rfl

/-- One parse step only ever appends entries carrying a present pid. -/
theorem parse_line_entries (nameOf pathOf : Nat → Option String) (st : ParseState)
    (l : String) (st2 : ParseState) (h : parse_line nameOf pathOf st l = some st2) :
    ∀ e ∈ st2.entries, e ∈ st.entries ∨ e.pid.isSome = true := by
  unfold parse_line at h
  repeat' split at h
  all_goals
    first
      | exact Option.noConfusion h
      | (cases h
         exact fun e he => Or.inl he)
      | (cases h
         intro e he
         rcases List.mem_append.mp he with h1 | h2
         · exact Or.inl h1
         · right
           rw [List.mem_singleton.mp h2]
           rfl)

/-- The parse fold only ever appends entries carrying a present pid. -/
theorem parse_lines_entries (nameOf pathOf : Nat → Option String) :
    ∀ (ls : List String) (st st2 : ParseState),
      parse_lines nameOf pathOf st ls = some st2 →
      (∀ e ∈ st.entries, e.pid.isSome = true) →
      ∀ e ∈ st2.entries, e.pid.isSome = true
  | [], st, st2, h, hinv => by
    cases h
    exact hinv
  | l :: ls, st, st2, h, hinv => by
    unfold parse_lines at h
    cases hstep : parse_line nameOf pathOf st l with
    | none =>
      rw [hstep] at h
      exact Option.noConfusion h
    | some st1 =>
      rw [hstep] at h
      have hinv1 : ∀ e ∈ st1.entries, e.pid.isSome = true := by
        intro e he
        rcases parse_line_entries nameOf pathOf st l st1 hstep e he with h1 | h2
        · exact hinv e h1
        · exact h2
      exact parse_lines_entries nameOf pathOf ls st1 st2 h hinv1

/-- Every raw record produced by the lsof parse carries a present pid. -/
theorem parse_lsof_pid (nameOf pathOf : Nat → Option String) (text : String)
    (raw : List PortEntry) (h : parse_lsof nameOf pathOf text = some raw) :
    ∀ e ∈ raw, e.pid.isSome = true := by
  unfold parse_lsof at h
  cases hrun : parse_lines nameOf pathOf ⟨none, none, []⟩ (rustLines text) with
  | none =>
    rw [hrun] at h
    exact Option.noConfusion h
  | some stF =>
    rw [hrun] at h
    have hr : stF.entries = raw := Option.some.inj h
    rw [← hr]
    exact parse_lines_entries nameOf pathOf (rustLines text) ⟨none, none, []⟩ stF hrun
      (fun e he => absurd he (List.not_mem_nil e))

/-- One parse step succeeds on every line whose first character is a single
byte (and on every blank line). -/
theorem parse_line_isSome (nameOf pathOf : Nat → Option String) (st : ParseState)
    (l : String) (h : lineTagOk l = true) :
    (parse_line nameOf pathOf st l).isSome = true := by
  unfold lineTagOk at h
  unfold parse_line
  split
  · rfl
  · rename_i c rest heq
    rw [heq] at h
    have h1 : c.utf8Size = 1 := by
      simpa using h
    rw [if_neg (by simp [h1])]
    repeat' split
    all_goals rfl

/-- The parse fold succeeds on every list of safely tagged lines. -/
theorem parse_lines_isSome (nameOf pathOf : Nat → Option String) :
    ∀ (ls : List String) (st : ParseState),
      (∀ l ∈ ls, lineTagOk l = true) →
      (parse_lines nameOf pathOf st ls).isSome = true
  | [], st, _ => rfl
  | l :: ls, st, hok => by
    have hstep := parse_line_isSome nameOf pathOf st l (hok l (List.mem_cons_self l ls))
    unfold parse_lines
    cases hres : parse_line nameOf pathOf st l with
    | none =>
      rw [hres] at hstep
      exact Bool.noConfusion hstep
    | some st1 =>
      exact parse_lines_isSome nameOf pathOf ls st1
        (fun x hx => hok x (List.mem_cons_of_mem l hx))

/-- Entries surviving the deduplication filter come from the input list. -/
theorem dedupGo_mem : ∀ (seen : List (Nat × Nat)) (l : List PortEntry) (e : PortEntry),
    e ∈ dedupGo seen l → e ∈ l
  | _, [], e, h => absurd h (List.not_mem_nil e)
  | seen, e2 :: t, e, h => by
    unfold dedupGo at h
    split at h
    · rename_i pv hpid
      split at h
      · exact List.mem_cons_of_mem e2 (dedupGo_mem seen t e h)
      · rcases List.mem_cons.mp h with rfl | h2
        · exact List.mem_cons_self e t
        · exact List.mem_cons_of_mem e2 (dedupGo_mem _ t e h2)
    · rcases List.mem_cons.mp h with rfl | h2
      · exact List.mem_cons_self e t
      · exact List.mem_cons_of_mem e2 (dedupGo_mem seen t e h2)

/-- Every entry of the enriched list shares port, pid, executable path and
kind with an entry of the input list. -/
theorem enrich_mem_fields (docker : CmdResult) (l : List PortEntry) (e : PortEntry)
    (he : e ∈ enrich_docker_containers docker l) :
    ∃ e0 ∈ l, e.port = e0.port ∧ e.pid = e0.pid
      ∧ e.exec_path = e0.exec_path ∧ e.kind = e0.kind := by
  cases docker with
  | unavailable => exact ⟨e, he, rfl, rfl, rfl, rfl⟩
  | ran ok text =>
    cases ok with
    | false => exact ⟨e, he, rfl, rfl, rfl, rfl⟩
    | true =>
      rcases List.mem_map.mp he with ⟨e0, he0, rfl⟩
      have hf := enrichEntry_fields (dockerPortMap text) e0
      exact ⟨e0, he0, hf.1, hf.2.1, hf.2.2.1, hf.2.2.2⟩

/-- The ancestor walk grows the chain by at most its fuel. -/
theorem parentChainLoop_length (parentOf : Nat → Option Nat) (nameOf : Nat → Option String) :
    ∀ (fuel current : Nat) (seen : List Nat) (chain : List (Nat × String)),
      (parentChainLoop parentOf nameOf fuel current seen chain).length ≤ chain.length + fuel
  | 0, _, _, chain => Nat.le_add_right _ _
  | fuel + 1, current, seen, chain => by
    unfold parentChainLoop
    split
    · exact Nat.le_add_right _ _
    · split
      · exact Nat.le_add_right _ _
      · rename_i ppid heqp
        split
        · exact Nat.le_add_right _ _
        · split
          · exact Nat.le_add_right _ _
          · rename_i name heqn
            have ih := parentChainLoop_length parentOf nameOf fuel ppid
              (current :: seen) ((ppid, name) :: chain)
            simp only [List.length_cons] at ih
            omega

/-- The ancestor walk only ever prepends pids that passed the 0/1 guard. -/
theorem parentChainLoop_mem (parentOf : Nat → Option Nat) (nameOf : Nat → Option String) :
    ∀ (fuel current : Nat) (seen : List Nat) (chain : List (Nat × String)),
      (∀ pr ∈ chain, pr.1 ≠ 0 ∧ pr.1 ≠ 1) →
      ∀ pr ∈ parentChainLoop parentOf nameOf fuel current seen chain, pr.1 ≠ 0 ∧ pr.1 ≠ 1
  | 0, _, _, _, hchain => hchain
  | fuel + 1, current, seen, chain, hchain => by
    unfold parentChainLoop
    split
    · exact hchain
    · split
      · exact hchain
      · rename_i ppid heqp
        split
        · exact hchain
        · rename_i hguard
          split
          · exact hchain
          · rename_i name heqn
            apply parentChainLoop_mem parentOf nameOf fuel ppid (current :: seen)
            intro pr hpr
            rcases List.mem_cons.mp hpr with rfl | h2
            · constructor
              · exact fun hc => hguard (Or.inl hc)
              · exact fun hc => hguard (Or.inr hc)
            · exact hchain pr h2

/-- C2: classify is a total pure Lean function by construction (no side
effects, no failure outcome in its type), and the process-name keyword rules
take strict priority over the port-number table, as pinned by the four cases
of the claim: a dev keyword beats the database port 5432, a database keyword
beats the unknown port 9999, the port table decides 3000 without a name, and
an unlisted port without a name is Unknown. -/
theorem classify_priority_spec :
    classify 5432 (some "node") = Kind.Dev
    ∧ classify 9999 (some "postgres-worker") = Kind.Database
    ∧ classify 3000 none = Kind.Dev
    ∧ classify 1 none = Kind.Unknown := by
  refine ⟨by decide, by decide, by decide, by decide⟩

/-- C6: extract_port takes the substring after the last colon and parses the
leading digit run, uniformly across wildcard hosts, dotted hosts, bracketed
IPv6 addresses, colon-free text and a bare colon, as pinned by the five cases
of the claim. -/
theorem extract_port_examples_spec :
    extract_port "*:3000" = some 3000
    ∧ extract_port "127.0.0.1:8080" = some 8080
    ∧ extract_port "[::1]:5432" = some 5432
    ∧ extract_port "no-colon" = none
    ∧ extract_port ":" = none := by
  refine ⟨by decide, by decide, by decide, by decide, by decide⟩

/-- C8: get_friendly_container_name always appends the container suffix, and
prefers the base image name over the container name exactly when the
container name is generic (longer than 20 bytes or all hex digits/hyphens)
and the image base name is not; the two pinned examples follow. -/
theorem get_friendly_container_name_spec :
    (∀ cn im, get_friendly_container_name cn im
        = (if is_generic_name cn && !(is_generic_name (image_base_name im))
           then image_base_name im else cn) ++ " (container)")
    ∧ get_friendly_container_name "a1b2c3d4e5f6a1b2c3d4e5f6" "redis:7-alpine"
        = "redis (container)"
    ∧ get_friendly_container_name "my-app" "redis:7-alpine" = "my-app (container)" := by
  refine ⟨fun cn im => rfl, by decide, by decide⟩

/-- C4: in the detail aggregation, a panicking sub-query (modelled by a none
join outcome) degrades exactly its own fields to their zero-value defaults
while every other field of the record equals what the remaining sub-queries
deliver; in particular a failed ancestor-chain query yields an empty
parent_chain and changes nothing else. The function itself is total, so no
single failure aborts the aggregation. -/
theorem get_detailed_port_info_subquery_degradation (port pid : Nat) (kind : Kind)
    (nameOf pathOf : Nat → Option String) (r : SubqueryResults) :
    get_detailed_port_info port pid kind nameOf pathOf { r with ps := none }
      = { get_detailed_port_info port pid kind nameOf pathOf r with
          command := "unknown", user_name := "", uid := 0, uptime := "", start_time := "",
          memory_rss := 0, memory_virtual := 0, cpu_usage := 0, thread_count := 0,
          env_vars := [] }
    ∧ get_detailed_port_info port pid kind nameOf pathOf { r with lsofInfo := none }
      = { get_detailed_port_info port pid kind nameOf pathOf r with
          working_dir := none, file_descriptors := 0, listen_addresses := [],
          other_ports := [] }
    ∧ get_detailed_port_info port pid kind nameOf pathOf { r with parent := none }
      = { get_detailed_port_info port pid kind nameOf pathOf r with parent_chain := [] }
    ∧ get_detailed_port_info port pid kind nameOf pathOf { r with children := none }
      = { get_detailed_port_info port pid kind nameOf pathOf r with children := [] }
    ∧ get_detailed_port_info port pid kind nameOf pathOf { r with connections := none }
      = { get_detailed_port_info port pid kind nameOf pathOf r with active_connections := 0 }
    ∧ get_detailed_port_info port pid kind nameOf pathOf { r with docker := none }
      = { get_detailed_port_info port pid kind nameOf pathOf r with docker_info := none } :=
  ⟨rfl, rfl, rfl, rfl, rfl, rfl⟩

/-- C7: for every parent-pid relation and name oracle the ancestor chain has
at most ten entries and never contains pid 0 or pid 1; the walk is a total
function of its ten-step fuel, so it terminates on every input, cycles
included. -/
theorem get_parent_chain_invariant (parentOf : Nat → Option Nat)
    (nameOf : Nat → Option String) (pid : Nat) :
    (get_parent_chain parentOf nameOf pid).length ≤ 10
    ∧ ∀ pr ∈ get_parent_chain parentOf nameOf pid, pr.1 ≠ 0 ∧ pr.1 ≠ 1 := by
  constructor
  · have h := parentChainLoop_length parentOf nameOf 10 pid [] []
    simpa [get_parent_chain] using h
  · exact parentChainLoop_mem parentOf nameOf 10 pid [] []
      (fun pr hpr => absurd hpr (List.not_mem_nil pr))

/-- C7 witness: the bound evaluated on a concrete ever-ascending parent
relation, where the walk exhausts its fuel. -/
theorem get_parent_chain_invariant_witness :
    (get_parent_chain (fun n => some (n + 1)) (fun _ => some "proc") 2).length ≤ 10 :=
  (get_parent_chain_invariant (fun n => some (n + 1)) (fun _ => some "proc") 2).1

/-- C5: enrichment with a failed docker query is the identity on the entry
list, and in every case enrichment preserves length and order, never changes
port, pid, exec_path or kind, and rewrites at most the process field, only
for Container-kind entries whose present process name mentions docker. -/
theorem enrich_docker_containers_frame_spec :
    (∀ (entries : List PortEntry) (t : String),
        enrich_docker_containers CmdResult.unavailable entries = entries
        ∧ enrich_docker_containers (CmdResult.ran false t) entries = entries)
    ∧ ∀ (docker : CmdResult) (entries : List PortEntry), List.Forall₂
        (fun e enriched => enriched.port = e.port ∧ enriched.pid = e.pid
            ∧ enriched.exec_path = e.exec_path ∧ enriched.kind = e.kind
            ∧ (¬ dockerishEntry e → enriched = e))
        entries (enrich_docker_containers docker entries) := by
  constructor
  · exact fun entries t => ⟨rfl, rfl⟩
  · intro docker entries
    cases docker with
    | unavailable =>
      induction entries with
      | nil => exact List.Forall₂.nil
      | cons e t ih => exact List.Forall₂.cons ⟨rfl, rfl, rfl, rfl, fun _ => rfl⟩ ih
    | ran ok text =>
      cases ok with
      | false =>
        induction entries with
        | nil => exact List.Forall₂.nil
        | cons e t ih => exact List.Forall₂.cons ⟨rfl, rfl, rfl, rfl, fun _ => rfl⟩ ih
      | true =>
        induction entries with
        | nil => exact List.Forall₂.nil
        | cons e t ih =>
          refine List.Forall₂.cons ?_ ih
          have hf := enrichEntry_fields (dockerPortMap text) e
          exact ⟨hf.1, hf.2.1, hf.2.2.1, hf.2.2.2,
            fun hnd => enrichEntry_id (dockerPortMap text) e hnd⟩

/-- C5 witness: the identity behaviour evaluated at a concrete entry with an
unavailable container runtime. -/
theorem enrich_docker_containers_frame_witness :
    enrich_docker_containers CmdResult.unavailable
        [{ port := 3000, pid := some 7, process := some "node",
           exec_path := none, kind := Kind.Dev }]
      = [{ port := 3000, pid := some 7, process := some "node",
           exec_path := none, kind := Kind.Dev }] :=
  (enrich_docker_containers_frame_spec.1
    [{ port := 3000, pid := some 7, process := some "node",
       exec_path := none, kind := Kind.Dev }] "").1

/-- C3 (counterexample): the discovery parser is not total on arbitrary tool
output. On a line whose first character occupies two bytes the Rust loop
panics at the byte slice line[1..] before inspecting the tag, modelled here
by the none outcome: nothing is parsed and nothing is skipped. -/
theorem parse_lsof_multibyte_counterexample :
    parse_lsof (fun _ => none) (fun _ => none) "p1\nép" = none := rfl

/-- C3 (amended): on every text whose non-blank lines start with a
single-byte character — which covers all real lsof field output, whose tag
characters are ascii — the parser is total; blank lines are skipped,
recognised-but-unparseable fields are skipped (an n line whose address yields
no port leaves the state unchanged), and lines with unrecognised single-byte
tag characters are ignored. -/
theorem parse_lsof_total_on_single_byte_tags :
    (∀ (nameOf pathOf : Nat → Option String) (text : String),
        (∀ l ∈ rustLines text, lineTagOk l = true) →
        (parse_lsof nameOf pathOf text).isSome = true)
    ∧ (∀ (nameOf pathOf : Nat → Option String) (st : ParseState),
        parse_line nameOf pathOf st "" = some st)
    ∧ (∀ (nameOf pathOf : Nat → Option String) (st : ParseState) (c : Char)
        (rest : List Char),
        c.utf8Size = 1 → c ≠ 'p' → c ≠ 'c' → c ≠ 'n' →
        parse_line nameOf pathOf st (String.mk (c :: rest)) = some st)
    ∧ (∀ (nameOf pathOf : Nat → Option String) (st : ParseState) (v : List Char),
        extract_port (String.mk v) = none →
        parse_line nameOf pathOf st (String.mk ('n' :: v)) = some st) := by
  refine ⟨?_, ?_, ?_, ?_⟩
  · intro nameOf pathOf text h
    unfold parse_lsof
    have htot := parse_lines_isSome nameOf pathOf (rustLines text) ⟨none, none, []⟩ h
    cases hres : parse_lines nameOf pathOf ⟨none, none, []⟩ (rustLines text) with
    | none =>
      rw [hres] at htot
      exact Bool.noConfusion htot
    | some stF =>
      rfl
  · intro nameOf pathOf st
    rfl
  · intro nameOf pathOf st c rest h1 hp hc hn
    show (if c.utf8Size ≠ 1 then none
      else if c = 'p' then
        some { st with current_pid := rustParseNat? 4294967295 (String.mk rest),
                       current_cmd := none }
      else if c = 'c' then
        some { st with current_cmd := some (String.mk rest) }
      else if c = 'n' then
        match st.current_pid with
        | none => some st
        | some pid =>
          match extract_port (String.mk rest) with
          | none => some st
          | some port =>
            some { st with entries := st.entries ++
              [{ port := port, pid := some pid,
                 process := resolveProcessName nameOf st.current_cmd pid,
                 exec_path := pathOf pid,
                 kind := classify port (resolveProcessName nameOf st.current_cmd pid) }] }
      else some st) = some st
    have hsz : ¬(c.utf8Size ≠ 1) := by simp [h1]
    rw [if_neg hsz, if_neg hp, if_neg hc, if_neg hn]
  · intro nameOf pathOf st v hv
    show (if ('n' : Char).utf8Size ≠ 1 then none
      else if ('n' : Char) = 'p' then
        some { st with current_pid := rustParseNat? 4294967295 (String.mk v),
                       current_cmd := none }
      else if ('n' : Char) = 'c' then
        some { st with current_cmd := some (String.mk v) }
      else if ('n' : Char) = 'n' then
        match st.current_pid with
        | none => some st
        | some pid =>
          match extract_port (String.mk v) with
          | none => some st
          | some port =>
            some { st with entries := st.entries ++
              [{ port := port, pid := some pid,
                 process := resolveProcessName nameOf st.current_cmd pid,
                 exec_path := pathOf pid,
                 kind := classify port (resolveProcessName nameOf st.current_cmd pid) }] }
      else some st) = some st
    have hsz : ¬(('n' : Char).utf8Size ≠ 1) := by decide
    rw [if_neg hsz, if_neg (show ('n' : Char) ≠ 'p' by decide),
      if_neg (show ('n' : Char) ≠ 'c' by decide), if_pos (rfl : ('n' : Char) = 'n')]
    cases st.current_pid with
    | none => rfl
    | some pid =>
      rw [hv]

/-- C3 witness: the totality statement applied to a concrete output holding a
pid line, an unrecognised tag, a blank line and a portless n line. -/
theorem parse_lsof_total_witness :
    (∀ l ∈ rustLines "p12\nzjunk\n\nnnoport", lineTagOk l = true)
    ∧ (parse_lsof (fun _ => none) (fun _ => none) "p12\nzjunk\n\nnnoport").isSome = true :=
  ⟨by decide, parse_lsof_total_on_single_byte_tags.1 (fun _ => none) (fun _ => none)
    "p12\nzjunk\n\nnnoport" (by decide)⟩

/-- C9: a kill request for a port first deduplicates the matching entries by
pid: a pid appears exactly once among the termination targets when some entry
on the port carries it with a process name, and never twice, so a
multi-socket process receives exactly one termination sequence. -/
theorem cmd_kill_dedup_by_pid (entries : List PortEntry) (port pid : Nat) :
    (cmd_kill_targets entries port).countP (fun pr => decide (pr.1 = pid))
      = if ∃ e ∈ entries, e.port = port ∧ e.pid = some pid ∧ e.process.isSome = true
        then 1 else 0 := by
  unfold cmd_kill_targets
  rw [killDedupGo_countP]
  have hiff : ((pid ∉ ([] : List Nat))
      ∧ ∃ e ∈ entries.filter (fun e => decide (e.port = port)),
          e.pid = some pid ∧ e.process.isSome = true)
      ↔ ∃ e ∈ entries, e.port = port ∧ e.pid = some pid ∧ e.process.isSome = true := by
    constructor
    · rintro ⟨-, x, hx, hPx⟩
      have hmem := List.mem_filter.mp hx
      exact ⟨x, hmem.1, of_decide_eq_true hmem.2, hPx.1, hPx.2⟩
    · rintro ⟨x, hx, hport, hpid2, hproc⟩
      exact ⟨List.not_mem_nil pid,
        x, List.mem_filter.mpr ⟨hx, decide_eq_true hport⟩, hpid2, hproc⟩
  exact if_congr hiff rfl rfl

/-- C9 witness: two entries on the same port with the same pid yield a count
of one for that pid. -/
theorem cmd_kill_dedup_by_pid_witness :
    (cmd_kill_targets
        [{ port := 9, pid := some 5, process := some "node", exec_path := none,
           kind := Kind.Dev },
         { port := 9, pid := some 5, process := some "node", exec_path := none,
           kind := Kind.Dev }] 9).countP (fun pr => decide (pr.1 = 5))
      = if ∃ e ∈ [({ port := 9, pid := some 5, process := some "node", exec_path := none,
                     kind := Kind.Dev } : PortEntry),
                  { port := 9, pid := some 5, process := some "node", exec_path := none,
                     kind := Kind.Dev }],
            e.port = 9 ∧ e.pid = some 5 ∧ e.process.isSome = true
        then 1 else 0 :=
  cmd_kill_dedup_by_pid
    [{ port := 9, pid := some 5, process := some "node", exec_path := none,
       kind := Kind.Dev },
     { port := 9, pid := some 5, process := some "node", exec_path := none,
       kind := Kind.Dev }] 9 5

/-- C10: every entry of a successfully discovered list carries a present pid:
the parse loop only emits an entry inside an active process-id context, and
deduplication, enrichment and sorting preserve the pid field, so the
pid-less branch of the deduplication filter is unreachable from real
discovery output. -/
theorem discover_ports_pid_present (nameOf pathOf : Nat → Option String)
    (docker : CmdResult) (text : String) (l : List PortEntry)
    (h : discover_ports nameOf pathOf docker (CmdResult.ran true text)
      = Except.ok (some l)) :
    ∀ e ∈ l, e.pid.isSome = true := by
  unfold discover_ports at h
  have h2 : (match parse_lsof nameOf pathOf text with
      | none => (Except.ok none : Except String (Option (List PortEntry)))
      | some raw => Except.ok (some (List.insertionSort portLE
          (enrich_docker_containers docker (dedupGo [] raw)))))
      = Except.ok (some l) := h
  cases hp : parse_lsof nameOf pathOf text with
  | none =>
    rw [hp] at h2
    exact absurd (Except.ok.inj h2) (by simp)
  | some raw =>
    rw [hp] at h2
    have hl : List.insertionSort portLE
        (enrich_docker_containers docker (dedupGo [] raw)) = l :=
      Option.some.inj (Except.ok.inj h2)
    intro e he
    rw [← hl] at he
    have he2 : e ∈ enrich_docker_containers docker (dedupGo [] raw) :=
      (List.perm_insertionSort portLE _).mem_iff.mp he
    rcases enrich_mem_fields docker _ e he2 with ⟨e0, he0, -, hpid2, -, -⟩
    have he3 : e0 ∈ raw := dedupGo_mem [] _ e0 he0
    rw [hpid2]
    exact parse_lsof_pid nameOf pathOf text raw hp e0 he3

/-- C10 witness: a concrete discovery run whose single produced entry carries
a present pid. -/
theorem discover_ports_pid_present_witness :
    discover_ports (fun _ => none) (fun _ => none) CmdResult.unavailable
        (CmdResult.ran true "p5\ncfoo\nn*:3000")
      = Except.ok (some [{ port := 3000, pid := some 5, process := some "foo",
                           exec_path := none, kind := Kind.Dev }])
    ∧ ({ port := 3000, pid := some 5, process := some "foo", exec_path := none,
         kind := Kind.Dev } : PortEntry).pid.isSome = true :=
  ⟨rfl, discover_ports_pid_present (fun _ => none) (fun _ => none)
    CmdResult.unavailable "p5\ncfoo\nn*:3000"
    [{ port := 3000, pid := some 5, process := some "foo", exec_path := none,
       kind := Kind.Dev }] rfl
    { port := 3000, pid := some 5, process := some "foo", exec_path := none,
      kind := Kind.Dev } (List.mem_singleton.mpr rfl)⟩

/-- C1 (counterexample): discover_ports does not return an entry list for
every lsof output with a zero exit status. When the output's line starts with
a two-byte character the Rust parsing loop panics at the byte slice line[1..]
(modelled by the ok-none outcome): the run exits successfully yet neither a
list nor a discovery error is produced, refuting the claim as stated. -/
theorem discover_ports_not_total_counterexample :
    discover_ports (fun _ => none) (fun _ => none) CmdResult.unavailable
      (CmdResult.ran true "é:3000") = Except.ok none := rfl

/-- C1 (amended): for every lsof stdout on which the field parse completes
without the byte-boundary panic (any output whose non-blank lines begin with
single-byte characters, which covers all real lsof field output),
discover_ports returns a list that is sorted ascending by port and
deduplicated by (port, pid) — a (port, pid) pair occurring among the raw
parsed records yields exactly one entry, and pairs never occurring yield
none — and it returns a discovery error exactly when the enumeration tool
cannot be invoked or exits non-zero. -/
theorem discover_ports_dedup_sorted_contract (nameOf pathOf : Nat → Option String)
    (docker : CmdResult) (text : String) (raw : List PortEntry)
    (hparse : parse_lsof nameOf pathOf text = some raw) :
    (∃ msg, discover_ports nameOf pathOf docker CmdResult.unavailable
        = Except.error msg)
    ∧ (∀ t, ∃ msg, discover_ports nameOf pathOf docker (CmdResult.ran false t)
        = Except.error msg)
    ∧ (∀ t msg, discover_ports nameOf pathOf docker (CmdResult.ran true t)
        ≠ Except.error msg)
    ∧ ∃ l, discover_ports nameOf pathOf docker (CmdResult.ran true text)
          = Except.ok (some l)
        ∧ List.Sorted portLE l
        ∧ ∀ p q, l.countP (fun e => decide (e.port = p ∧ e.pid = some q))
            = if ∃ e ∈ raw, e.port = p ∧ e.pid = some q then 1 else 0 := by
  refine ⟨⟨_, rfl⟩, fun t => ⟨_, rfl⟩, ?_, ?_⟩
  · intro t msg hcontra
    have h2 : (match parse_lsof nameOf pathOf t with
        | none => (Except.ok none : Except String (Option (List PortEntry)))
        | some raw2 => Except.ok (some (List.insertionSort portLE
            (enrich_docker_containers docker (dedupGo [] raw2)))))
        = Except.error msg := hcontra
    cases hp : parse_lsof nameOf pathOf t with
    | none =>
      rw [hp] at h2
      exact Except.noConfusion h2
    | some raw2 =>
      rw [hp] at h2
      exact Except.noConfusion h2
  · refine ⟨List.insertionSort portLE (enrich_docker_containers docker (dedupGo [] raw)),
      ?_, ?_, ?_⟩
    · show (match parse_lsof nameOf pathOf text with
        | none => (Except.ok none : Except String (Option (List PortEntry)))
        | some raw2 => Except.ok (some (List.insertionSort portLE
            (enrich_docker_containers docker (dedupGo [] raw2)))))
        = Except.ok (some (List.insertionSort portLE
            (enrich_docker_containers docker (dedupGo [] raw))))
      rw [hparse]
    · exact List.sorted_insertionSort portLE _
    · intro p q
      have hinv : ∀ (m : List (Nat × (String × String))) (e : PortEntry),
          (decide ((enrichEntry m e).port = p ∧ (enrichEntry m e).pid = some q))
            = decide (e.port = p ∧ e.pid = some q) := by
        intro m e
        apply decide_eq_decide.mpr
        have hf := enrichEntry_fields m e
        rw [hf.1, hf.2.1]
      rw [(List.perm_insertionSort portLE _).countP_eq]
      rw [countP_enrich docker _ _ hinv]
      rw [dedupGo_countP p q raw []]
      have hiff : (((p, q) ∉ ([] : List (Nat × Nat)))
          ∧ ∃ e ∈ raw, e.port = p ∧ e.pid = some q)
          ↔ ∃ e ∈ raw, e.port = p ∧ e.pid = some q := by
        constructor
        · exact fun h => h.2
        · exact fun h => ⟨List.not_mem_nil (p, q), h⟩
      exact if_congr hiff rfl rfl

/-- C1 witness: a concrete run in which an IPv4 and an IPv6 bind of the same
process on port 8080 are parsed into two raw records and discovered as
exactly one sorted entry. -/
theorem discover_ports_dedup_sorted_contract_witness :
    parse_lsof (fun _ => none) (fun _ => none) "p42\nchello\nn*:8080\nn[::1]:8080"
      = some [{ port := 8080, pid := some 42, process := some "hello",
                exec_path := none, kind := Kind.Dev },
              { port := 8080, pid := some 42, process := some "hello",
                exec_path := none, kind := Kind.Dev }]
    ∧ ∃ l, discover_ports (fun _ => none) (fun _ => none) CmdResult.unavailable
          (CmdResult.ran true "p42\nchello\nn*:8080\nn[::1]:8080")
          = Except.ok (some l)
        ∧ List.Sorted portLE l
        ∧ ∀ p q, l.countP (fun e => decide (e.port = p ∧ e.pid = some q))
            = if ∃ e ∈ [({ port := 8080, pid := some 42, process := some "hello",
                           exec_path := none, kind := Kind.Dev } : PortEntry),
                        { port := 8080, pid := some 42, process := some "hello",
                           exec_path := none, kind := Kind.Dev }],
                  e.port = p ∧ e.pid = some q
              then 1 else 0 :=
  ⟨by decide,
   (discover_ports_dedup_sorted_contract (fun _ => none) (fun _ => none)
     CmdResult.unavailable "p42\nchello\nn*:8080\nn[::1]:8080"
     [{ port := 8080, pid := some 42, process := some "hello",
        exec_path := none, kind := Kind.Dev },
      { port := 8080, pid := some 42, process := some "hello",
        exec_path := none, kind := Kind.Dev }] (by decide)).2.2.2⟩
